import Mathlib

/-!
Verification of the ensemble metric functions in
src/baselines/cifar10/ensemble.py and of the transformed-random-variable
behaviour exercised by
src/edward2/tensorflow/transformed_random_variable_test.py.

The two metric functions are mathematically per-example: every output
element depends only on the matching slice of the inputs, so the batch
axes are modelled by a single example.  A label is any numeric scalar
(modelled by a rational, covering the integer and float tensors TensorFlow
accepts), the logits of one example are a function over the ensemble axis
and the class axis, and all arithmetic is over the reals.  A second,
shape-level model follows the same operation order on tensor shapes to
capture the failure behaviour of the broadcast step.
-/

namespace Edward2

/-- Twos-complement wrap of an integer into the signed 32-bit range,
modelling the overflow behaviour of a cast to int32. -/
def wrap32 (z : ℤ) : ℤ := (z + 2 ^ 31) % 2 ^ 32 - 2 ^ 31

/-- Model of the statement labels = tf.cast(labels, tf.int32) on one scalar
label: truncation toward zero (truncating division of the reduced numerator
by the reduced denominator, so -7/2 casts to -3 as tf.cast does; the
identity on integral values), then the int32 wrap. -/
def tfCastInt32 (q : ℚ) : ℤ := wrap32 (q.num.tdiv (q.den : ℤ))

/-- Reading the logit at an integer class index, as the gather inside
tf.nn.sparse_softmax_cross_entropy_with_logits does: the logit at the index
when it is in range.  (Out of range TensorFlow fails or yields NaN; no
theorem below exercises the out-of-range branch.) -/
def logitAt {C : ℕ} (label : ℤ) (logits : Fin C → ℝ) : ℝ :=
  if h : 0 ≤ label ∧ label.toNat < C then logits ⟨label.toNat, h.2⟩ else 0

/-- Model of tf.nn.sparse_softmax_cross_entropy_with_logits on one example:
the negative log of the softmax probability of the labelled class, computed
as log of the sum of exponentials minus the labelled logit. -/
noncomputable def sparse_softmax_cross_entropy_with_logits {C : ℕ} (label : ℤ)
    (logits : Fin C → ℝ) : ℝ :=
  Real.log (∑ j, Real.exp (logits j)) - logitAt label logits

/-- Model of tf.nn.softmax on one example. -/
noncomputable def softmax {C : ℕ} (logits : Fin C → ℝ) (c : Fin C) : ℝ :=
  Real.exp (logits c) / ∑ j, Real.exp (logits j)

/-- Model of ensemble_negative_log_likelihood
(src/baselines/cifar10/ensemble.py, lines 48-71) on one example: cast the
label to int32, take the per-member cross entropies nll, and return
-reduce_logsumexp(-nll, axis=0) + log(ensemble_size), with ensemble_size
the size M of axis 0 of the logits. -/
noncomputable def ensemble_negative_log_likelihood {M C : ℕ} (labels : ℚ)
    (logits : Fin M → Fin C → ℝ) : ℝ :=
  -Real.log (∑ m, Real.exp
      (-(sparse_softmax_cross_entropy_with_logits (tfCastInt32 labels) (logits m))))
    + Real.log (M : ℝ)

/-- Model of gibbs_cross_entropy (src/baselines/cifar10/ensemble.py, lines
74-98) on one example: cast the label to int32, take the per-member cross
entropies nll, and return reduce_mean(nll, axis=0), the sum over the
ensemble axis divided by M. -/
noncomputable def gibbs_cross_entropy {M C : ℕ} (labels : ℚ)
    (logits : Fin M → Fin C → ℝ) : ℝ :=
  (∑ m, sparse_softmax_cross_entropy_with_logits (tfCastInt32 labels) (logits m))
    / (M : ℝ)

/-- Right-aligned broadcast compatibility of an input shape to a target
shape, as tf.broadcast_to requires: the input has no extra leading axes and
every trailing input dimension equals the matching target dimension or
is 1. -/
def broadcastCompat (input target : List ℕ) : Bool :=
  decide (input.length ≤ target.length) &&
    (List.zip input.reverse target.reverse).all fun p => p.1 == p.2 || p.1 == 1

/-- The failure a shape mismatch raises in the shape-level model (the spec
names it InvalidShapeError). -/
inductive TensorError where
  | invalidShape
  deriving DecidableEq, Repr

/-- Shape-level model of ensemble_negative_log_likelihood, following the
operation order of the source: the first shape-sensitive operation is
tf.broadcast_to(labels[tf.newaxis, ...], tf.shape(logits)[:-1]), evaluated
before any cross-entropy or logsumexp arithmetic; when it fails the
function stops there, otherwise the reduction over axis 0 drops the leading
axis of the broadcast result. -/
def ensembleNLLShape (labelsShape logitsShape : List ℕ) :
    Except TensorError (List ℕ) :=
  let nllShape := logitsShape.dropLast
  if broadcastCompat (1 :: labelsShape) nllShape then Except.ok nllShape.tail
  else Except.error TensorError.invalidShape

/-- Shape-level model of gibbs_cross_entropy; the source performs the same
cast, broadcast and axis-0 reduction. -/
def gibbsShape (labelsShape logitsShape : List ℕ) :
    Except TensorError (List ℕ) :=
  let nllShape := logitsShape.dropLast
  if broadcastCompat (1 :: labelsShape) nllShape then Except.ok nllShape.tail
  else Except.error TensorError.invalidShape

/-- A reversible transform as the test builds one: a forward map, a reverse
map, and the log-determinant of the Jacobian of the reverse map. -/
structure Transform where
  call : ℝ → ℝ
  reverse : ℝ → ℝ
  log_det_jacobian : ℝ → ℝ

/-- Modelled from the spec: TransformedRandomVariable (the class itself is
not under src/, only its test is).  Sampling applies the transform's
forward map to the realized sample of the base random variable. -/
noncomputable def transformedSample (t : Transform) (baseSample : ℝ) : ℝ := t.call baseSample

/-- Modelled from the spec: the log_prob of a TransformedRandomVariable by
change of variables, log p_Y(y) = log p_X(T.reverse(y)) +
T.log_det_jacobian(y). -/
noncomputable def transformedLogProb (t : Transform) (baseLogProb : ℝ → ℝ) (y : ℝ) : ℝ :=
  baseLogProb (t.reverse y) + t.log_det_jacobian y

/-- The Exp layer of the test (transformed_random_variable_test.py, lines
34-49): forward tf.exp, reverse tf.math.log, log-det-Jacobian -log. -/
noncomputable def ExpTransform : Transform :=
  { call := Real.exp, reverse := Real.log, log_det_jacobian := fun y => -Real.log y }

/-- Log-density of the standard normal base variable ed.Normal(0., 1.) of
the test. -/
noncomputable def stdNormalLogProb (x : ℝ) : ℝ :=
  -(x ^ 2) / 2 - Real.log (Real.sqrt (2 * Real.pi))

lemma sum_exp_pos {C : ℕ} (lab : Fin C) (logits : Fin C → ℝ) :
    0 < ∑ j, Real.exp (logits j) :=
  Finset.sum_pos (fun j _ => Real.exp_pos (logits j)) ⟨lab, Finset.mem_univ lab⟩

lemma softmax_pos {C : ℕ} (lab : Fin C) (logits : Fin C → ℝ) :
    0 < softmax logits lab :=
  div_pos (Real.exp_pos (logits lab)) (sum_exp_pos lab logits)

lemma logitAt_coe {C : ℕ} (lab : Fin C) (logits : Fin C → ℝ) :
    logitAt ((lab : ℕ) : ℤ) logits = logits lab := by
  have h : (0 : ℤ) ≤ ((lab : ℕ) : ℤ) ∧ (((lab : ℕ) : ℤ)).toNat < C := by
    refine ⟨Int.ofNat_nonneg _, ?_⟩
    simp
  rw [logitAt, dif_pos h]
  exact congrArg logits (Fin.ext (by simp))

lemma xent_coe_eq_neg_log_softmax {C : ℕ} (lab : Fin C) (logits : Fin C → ℝ) :
    sparse_softmax_cross_entropy_with_logits ((lab : ℕ) : ℤ) logits
      = -Real.log (softmax logits lab) := by
  rw [sparse_softmax_cross_entropy_with_logits, logitAt_coe, softmax,
    Real.log_div (Real.exp_ne_zero (logits lab)) (ne_of_gt (sum_exp_pos lab logits)),
    Real.log_exp]
  ring

lemma exp_neg_xent_coe {C : ℕ} (lab : Fin C) (logits : Fin C → ℝ) :
    Real.exp (-(sparse_softmax_cross_entropy_with_logits ((lab : ℕ) : ℤ) logits))
      = softmax logits lab := by
  rw [xent_coe_eq_neg_log_softmax, neg_neg, Real.exp_log (softmax_pos lab logits)]

lemma logsumexp_bound {M : ℕ} (hM : 0 < M) (x : Fin M → ℝ) :
    -Real.log (∑ m, Real.exp (x m)) + Real.log (M : ℝ)
      ≤ (∑ m, -(x m)) / (M : ℝ) := by
  have hMpos : (0 : ℝ) < (M : ℝ) := by exact_mod_cast hM
  have hMne : ((M : ℝ)) ≠ 0 := ne_of_gt hMpos
  have hne : (Finset.univ : Finset (Fin M)).Nonempty := ⟨⟨0, hM⟩, Finset.mem_univ _⟩
  have hA : 0 < ∑ m, Real.exp (x m) :=
    Finset.sum_pos (fun m _ => Real.exp_pos (x m)) hne
  have hw1 : (∑ _m : Fin M, ((M : ℝ))⁻¹) = 1 := by
    rw [Finset.sum_const, Finset.card_univ, Fintype.card_fin, nsmul_eq_mul]
    exact mul_inv_cancel₀ hMne
  have jensen := convexOn_exp.map_sum_le (t := Finset.univ)
      (w := fun _ => ((M : ℝ))⁻¹) (p := x)
      (fun i _ => inv_nonneg.2 (le_of_lt hMpos)) hw1 (fun i _ => Set.mem_univ _)
  simp only [smul_eq_mul] at jensen
  rw [← Finset.mul_sum, ← Finset.mul_sum] at jensen
  have hMA : 0 < ((M : ℝ))⁻¹ * ∑ m, Real.exp (x m) :=
    mul_pos (inv_pos.2 hMpos) hA
  have h1 : ((M : ℝ))⁻¹ * ∑ m, x m
      ≤ Real.log (((M : ℝ))⁻¹ * ∑ m, Real.exp (x m)) := by
    rw [← Real.log_exp (((M : ℝ))⁻¹ * ∑ m, x m)]
    exact (Real.log_le_log_iff (Real.exp_pos _) hMA).2 jensen
  rw [Real.log_mul (inv_ne_zero hMne) (ne_of_gt hA), Real.log_inv] at h1
  have h2 : (∑ m, -(x m)) / (M : ℝ) = -(((M : ℝ))⁻¹ * ∑ m, x m) := by
    rw [Finset.sum_neg_distrib, neg_div, div_eq_mul_inv, mul_comm]
  rw [h2]
  linarith

/-- C1: for every label and every logits stack with M at least 1 members
(the label in class range after the int32 cast), the ensemble negative log
likelihood is -logsumexp over members of the negated per-member negative
log likelihoods plus log M, and this equals the negative log of the mixture
predictive probability, the mean over members of the softmax probability of
the labelled class. -/
theorem ensemble_nll_is_mixture_nll {M C : ℕ} (labels : ℚ)
    (logits : Fin M → Fin C → ℝ) (lab : Fin C) (hM : 0 < M)
    (hlab : tfCastInt32 labels = ((lab : ℕ) : ℤ)) :
    ensemble_negative_log_likelihood labels logits
        = -Real.log (∑ m, Real.exp (-(-Real.log (softmax (logits m) lab))))
          + Real.log (M : ℝ)
    ∧ ensemble_negative_log_likelihood labels logits
        = -Real.log ((1 / (M : ℝ)) * ∑ m, softmax (logits m) lab) := by
  have hMpos : (0 : ℝ) < (M : ℝ) := by exact_mod_cast hM
  have hP : 0 < ∑ m, softmax (logits m) lab :=
    Finset.sum_pos (fun m _ => softmax_pos lab (logits m)) ⟨⟨0, hM⟩, Finset.mem_univ _⟩
  constructor
  · rw [ensemble_negative_log_likelihood, hlab]
    simp only [xent_coe_eq_neg_log_softmax]
  · rw [ensemble_negative_log_likelihood, hlab]
    simp only [exp_neg_xent_coe]
    rw [one_div, Real.log_mul (inv_ne_zero (ne_of_gt hMpos)) (ne_of_gt hP),
      Real.log_inv]
    ring

theorem ensemble_nll_is_mixture_nll_witness :
    (0 < 2 ∧ tfCastInt32 0 = (((0 : Fin 2) : ℕ) : ℤ))
    ∧ (ensemble_negative_log_likelihood (M := 2) (C := 2) 0 (fun _ _ => 0)
          = -Real.log (∑ _m : Fin 2, Real.exp
              (-(-Real.log (softmax (fun _ : Fin 2 => (0 : ℝ)) 0))))
            + Real.log ((2 : ℕ) : ℝ)
       ∧ ensemble_negative_log_likelihood (M := 2) (C := 2) 0 (fun _ _ => 0)
          = -Real.log ((1 / ((2 : ℕ) : ℝ))
              * ∑ _m : Fin 2, softmax (fun _ : Fin 2 => (0 : ℝ)) 0)) :=
  ⟨⟨by decide, by decide⟩,
    ensemble_nll_is_mixture_nll (M := 2) (C := 2) 0 (fun _ _ => 0) 0
      (by decide) (by decide)⟩

/-- C2: for every label and every logits stack with M at least 1 members
(the label in class range after the int32 cast), the Gibbs cross entropy is
the arithmetic mean over the ensemble axis of the per-member negative log
likelihoods. -/
theorem gibbs_is_mean_member_nll {M C : ℕ} (labels : ℚ)
    (logits : Fin M → Fin C → ℝ) (lab : Fin C) (hM : 0 < M)
    (hlab : tfCastInt32 labels = ((lab : ℕ) : ℤ)) :
    gibbs_cross_entropy labels logits
      = (1 / (M : ℝ)) * ∑ m, -Real.log (softmax (logits m) lab) := by
  rw [gibbs_cross_entropy, hlab]
  simp only [xent_coe_eq_neg_log_softmax]
  ring

theorem gibbs_is_mean_member_nll_witness :
    (0 < 1 ∧ tfCastInt32 0 = (((0 : Fin 1) : ℕ) : ℤ))
    ∧ gibbs_cross_entropy (M := 1) (C := 1) 0 (fun _ _ => 0)
        = (1 / ((1 : ℕ) : ℝ))
          * ∑ _m : Fin 1, -Real.log (softmax (fun _ : Fin 1 => (0 : ℝ)) 0) :=
  ⟨⟨by decide, by decide⟩,
    gibbs_is_mean_member_nll (M := 1) (C := 1) 0 (fun _ _ => 0) 0
      (by decide) (by decide)⟩

/-- C3: for every label and every logits stack with M at least 1 members,
the Gibbs cross entropy is at least the ensemble negative log likelihood
(Jensen inequality for the mean of per-member negative log likelihoods
against the mixture negative log likelihood). -/
theorem gibbs_ge_ensemble_nll {M C : ℕ} (labels : ℚ)
    (logits : Fin M → Fin C → ℝ) (hM : 0 < M) :
    gibbs_cross_entropy labels logits
      ≥ ensemble_negative_log_likelihood labels logits := by
  rw [ge_iff_le, ensemble_negative_log_likelihood, gibbs_cross_entropy]
  have h := logsumexp_bound hM (fun m =>
    -(sparse_softmax_cross_entropy_with_logits (tfCastInt32 labels) (logits m)))
  simp only [neg_neg] at h
  exact h

theorem gibbs_ge_ensemble_nll_witness :
    0 < 2
    ∧ gibbs_cross_entropy (M := 2) (C := 2) 0 (fun _ _ => 0)
        ≥ ensemble_negative_log_likelihood (M := 2) (C := 2) 0 (fun _ _ => 0) :=
  ⟨by decide, gibbs_ge_ensemble_nll (M := 2) (C := 2) 0 (fun _ _ => 0) (by decide)⟩

/-- C4: applying any permutation of the member indices to the ensemble axis
of the logits leaves the outputs of both ensemble_negative_log_likelihood
and gibbs_cross_entropy unchanged, for every label. -/
theorem metrics_permutation_invariant {M C : ℕ} (labels : ℚ)
    (logits : Fin M → Fin C → ℝ) (σ : Equiv.Perm (Fin M)) :
    ensemble_negative_log_likelihood labels (fun m => logits (σ m))
        = ensemble_negative_log_likelihood labels logits
    ∧ gibbs_cross_entropy labels (fun m => logits (σ m))
        = gibbs_cross_entropy labels logits := by
  constructor
  · rw [ensemble_negative_log_likelihood, ensemble_negative_log_likelihood,
      Equiv.sum_comp σ (fun m => Real.exp
        (-(sparse_softmax_cross_entropy_with_logits (tfCastInt32 labels) (logits m))))]
  · rw [gibbs_cross_entropy, gibbs_cross_entropy,
      Equiv.sum_comp σ (fun m =>
        sparse_softmax_cross_entropy_with_logits (tfCastInt32 labels) (logits m))]

/-- C5: with a single-member ensemble (M equal to 1) the ensemble negative
log likelihood equals the ordinary softmax cross entropy of that member,
the negative log of the softmax probability of the labelled class. -/
theorem ensemble_nll_single_member {C : ℕ} (labels : ℚ)
    (logits : Fin 1 → Fin C → ℝ) (lab : Fin C)
    (hlab : tfCastInt32 labels = ((lab : ℕ) : ℤ)) :
    ensemble_negative_log_likelihood labels logits
      = -Real.log (softmax (logits 0) lab) := by
  rw [ensemble_negative_log_likelihood, hlab, Fin.sum_univ_one, Real.log_exp]
  simp [xent_coe_eq_neg_log_softmax]

theorem ensemble_nll_single_member_witness :
    tfCastInt32 1 = (((1 : Fin 2) : ℕ) : ℤ)
    ∧ ensemble_negative_log_likelihood (M := 1) (C := 2) 1 (fun _ _ => 0)
        = -Real.log (softmax (fun _ : Fin 2 => (0 : ℝ)) 1) :=
  ⟨by decide, ensemble_nll_single_member (C := 2) 1 (fun _ _ => 0) 1 (by decide)⟩

/-- C6 counterexample: with ensemble size M equal to 0 neither the
shape-level pipeline nor the value-level function rejects the input: the
shape pipeline returns a result shape normally and the function computes a
value (0 under the real-number junk value log 0 = 0; NaN in TensorFlow
arithmetic), so no positivity check on M exists. -/
theorem ensemble_size_zero_not_rejected :
    ensembleNLLShape [] [0, 10] = Except.ok []
    ∧ ensemble_negative_log_likelihood (M := 0) (C := 10) 0 (fun _ _ => 0) = 0 := by
  constructor
  · rfl
  · rw [ensemble_negative_log_likelihood]
    simp

/-- C6 amended: ensemble_negative_log_likelihood performs no check on the
ensemble size: for M equal to 0 it still computes and returns a result
(the junk value of the empty logsumexp; NaN in TensorFlow) instead of
rejecting the input. -/
theorem ensemble_size_zero_computes (C : ℕ) (labels : ℚ)
    (logits : Fin 0 → Fin C → ℝ) :
    ensembleNLLShape [] [0, C] = Except.ok []
    ∧ ensemble_negative_log_likelihood labels logits = 0 := by
  constructor
  · rfl
  · rw [ensemble_negative_log_likelihood]
    simp

/-- C7: an ensemble/label shape mismatch, that is a labels shape that does
not broadcast to the logits shape with its class axis dropped, makes both
ensemble_negative_log_likelihood and gibbs_cross_entropy fail with the
invalid-shape error at the broadcast step, before any metric arithmetic
(the shape pipeline produces the error and no result). -/
theorem shape_mismatch_fails_fast (labelsShape logitsShape : List ℕ)
    (h : broadcastCompat (1 :: labelsShape) logitsShape.dropLast = false) :
    ensembleNLLShape labelsShape logitsShape
        = Except.error TensorError.invalidShape
    ∧ gibbsShape labelsShape logitsShape
        = Except.error TensorError.invalidShape := by
  constructor
  · simp [ensembleNLLShape, h]
  · simp [gibbsShape, h]

theorem shape_mismatch_fails_fast_witness :
    broadcastCompat (1 :: [3]) ([2, 4, 10]).dropLast = false
    ∧ (ensembleNLLShape [3] [2, 4, 10] = Except.error TensorError.invalidShape
       ∧ gibbsShape [3] [2, 4, 10] = Except.error TensorError.invalidShape) :=
  ⟨by decide, shape_mismatch_fails_fast [3] [2, 4, 10] (by decide)⟩

/-- C8: for the exponential transform of the test applied to the standard
normal base variable, every sampled value (the forward image of any base
sample) is strictly positive, and the log-density at the sampled point
equals the log-normal density formula, the base log-density at the log of
the point minus the log of the point; in particular it equals the finite
value stdNormalLogProb x - x at the base sample x (finiteness is automatic
in the real-valued model). -/
theorem exp_transform_sample_pos_logprob_lognormal (x : ℝ) :
    0 < transformedSample ExpTransform x
    ∧ transformedLogProb ExpTransform stdNormalLogProb
          (transformedSample ExpTransform x)
        = stdNormalLogProb (Real.log (transformedSample ExpTransform x))
          - Real.log (transformedSample ExpTransform x)
    ∧ transformedLogProb ExpTransform stdNormalLogProb
          (transformedSample ExpTransform x)
        = stdNormalLogProb x - x := by
  refine ⟨Real.exp_pos x, ?_, ?_⟩
  · rw [transformedLogProb, transformedSample]
    simp [ExpTransform, sub_eq_add_neg]
  · rw [transformedLogProb, transformedSample]
    simp [ExpTransform, Real.log_exp, sub_eq_add_neg]

/-- C9: the exponential/log transform pair of the test has a correct
inverse (reverse after call is the identity on every real), and applying
the inverse map of the transform to a sample of the transformed random
variable recovers the base sample. -/
theorem exp_transform_inverse_roundtrip (x : ℝ) :
    ExpTransform.reverse (ExpTransform.call x) = x
    ∧ ExpTransform.reverse (transformedSample ExpTransform x) = x := by
  exact ⟨Real.log_exp x, Real.log_exp x⟩

/-- C10: both metric functions use the labels only through the cast to
int32, so any numeric label is accepted and two label inputs that cast to
the same int32 value (for instance a non-integer label and its truncation)
yield identical outputs. -/
theorem labels_cast_int32_determines_output {M C : ℕ} (l1 l2 : ℚ)
    (logits : Fin M → Fin C → ℝ) (h : tfCastInt32 l1 = tfCastInt32 l2) :
    ensemble_negative_log_likelihood l1 logits
        = ensemble_negative_log_likelihood l2 logits
    ∧ gibbs_cross_entropy l1 logits = gibbs_cross_entropy l2 logits := by
  rw [ensemble_negative_log_likelihood, ensemble_negative_log_likelihood,
    gibbs_cross_entropy, gibbs_cross_entropy, h]
  exact ⟨rfl, rfl⟩

theorem labels_cast_int32_determines_output_witness :
    tfCastInt32 (mkRat (-7) 2) = tfCastInt32 (-3)
    ∧ (ensemble_negative_log_likelihood (M := 1) (C := 1) (mkRat (-7) 2) (fun _ _ => 0)
          = ensemble_negative_log_likelihood (M := 1) (C := 1) (-3) (fun _ _ => 0)
       ∧ gibbs_cross_entropy (M := 1) (C := 1) (mkRat (-7) 2) (fun _ _ => 0)
          = gibbs_cross_entropy (M := 1) (C := 1) (-3) (fun _ _ => 0)) :=
  ⟨by decide,
    labels_cast_int32_determines_output (M := 1) (C := 1) (mkRat (-7) 2) (-3)
      (fun _ _ => 0) (by decide)⟩

end Edward2
